import Mathlib

/-!
Verification of the `data_diff` package entry point (`src/data_diff/__init__.py`)
against its design specification.

The given source holds the caller-facing wiring: `TableRef` and `diff_tables`.
The table-view (`TableSegment`), differ (`TableDiffer`) and connection layer
(`connect_to_uri`) live in modules that are not part of the given sources; they
are modelled here from the specification, each such definition marked
`Modelled from the spec`.  Machine state that Python mutates (the connection
counter, the attribute stores of the `TableRef` arguments) is passed
explicitly.
-/

namespace DataDiff

/-- Key-column values (`DbKey`); modelled as integers, which the spec only
requires to be totally ordered. -/
abbrev DbKey := Int

/-- Update-column values (`DbTime`); modelled as integers. -/
abbrev DbTime := Int

/-- A row as fetched by the query layer: its key value, the value of the
update column, and the values of the extra columns. -/
structure Row where
  key : DbKey
  time : DbTime
  content : List Int
deriving DecidableEq

/-- The external query-execution collaborator: maps a connection URI and a
parsed table path to the rows stored in that table. -/
abbrev Env := String → List String → List Row

/-- Embeds `TableRef.__init__` (src/data_diff/__init__.py:21-23): the
attribute store of a `TableRef` object. -/
structure TableRef where
  db_uri : String
  table_name : String
deriving DecidableEq

/-- Embeds `TableRef.__init__` (src/data_diff/__init__.py:21-23) as a
constructor function: stores the URI and the table name. -/
def TableRef.init (db_uri table_name : String) : TableRef :=
  ⟨db_uri, table_name⟩

/-- Modelled from the spec: a query-capable handle bound to one database
(`database.py` is absent from the given sources).  `conn_id` distinguishes
independently opened connections; `thread_count` is the connection's
query-concurrency budget. -/
structure Database where
  uri : String
  thread_count : Nat
  conn_id : Nat
deriving DecidableEq

/-- The connection-opening state threaded through `connect_to_uri`: a counter
of fresh connection ids and a log of the URIs connected to, in order. -/
structure ConnState where
  nextConnId : Nat
  connectLog : List String
deriving DecidableEq

/-- Modelled from the spec: `connect_to_uri` (from the absent `database.py`)
opens a fresh connection to the given URI with the given thread count. -/
def connect_to_uri (uri : String) (thread_count : Nat) (st : ConnState) :
    Database × ConnState :=
  (⟨uri, thread_count, st.nextConnId⟩,
   ⟨st.nextConnId + 1, st.connectLog ++ [uri]⟩)

/-- Splits a character list on the dot character. -/
def splitOnDot : List Char → List (List Char)
  | [] => [[]]
  | c :: cs =>
    let r := splitOnDot cs
    if c = '.' then [] :: r
    else
      match r with
      | [] => [[c]]
      | g :: gs => (c :: g) :: gs

/-- Modelled from the spec: `parse_table_name` (from the absent
`diff_tables.py`) parses a "database.table" identifier string into its
dot-separated components. -/
def parse_table_name (s : String) : List String :=
  (splitOnDot s.data).map fun cs => String.mk cs

/-- Modelled from the spec: a Table View (`TableSegment` from the absent
`diff_tables.py`) — an immutable description of a bounded slice of one
table. -/
structure TableSegment where
  database : Database
  table_path : List String
  key_column : String
  update_column : Option String
  extra_columns : List String
  start_key : Option DbKey
  end_key : Option DbKey
  min_time : Option DbTime
  max_time : Option DbTime
deriving DecidableEq

/-- Modelled from the spec: Table View construction validates the key-range
precondition — a malformed range where start ≥ end is a
PreconditionViolation, rejected at construction. -/
def TableSegment.make (db : Database) (path : List String) (key_column : String)
    (update_column : Option String) (extra_columns : List String)
    (start_key end_key : Option DbKey) (min_time max_time : Option DbTime) :
    Except String TableSegment :=
  match start_key, end_key with
  | some s, some e =>
    if e ≤ s then
      Except.error "PreconditionViolation: start_key must be smaller than end_key"
    else
      Except.ok ⟨db, path, key_column, update_column, extra_columns,
        start_key, end_key, min_time, max_time⟩
  | _, _ =>
    Except.ok ⟨db, path, key_column, update_column, extra_columns,
      start_key, end_key, min_time, max_time⟩

/-- Embeds `TableRef.create_table_segment` (src/data_diff/__init__.py:25-27):
connects to the stored URI and constructs a table segment over the parsed
table name. -/
def TableRef.create_table_segment (t : TableRef) (thread_count : Nat)
    (key_column : String) (update_column : Option String)
    (extra_columns : List String) (start_key end_key : Option DbKey)
    (min_time max_time : Option DbTime) (st : ConnState) :
    Except String TableSegment × ConnState :=
  let p := connect_to_uri t.db_uri thread_count st
  (TableSegment.make p.1 (parse_table_name t.table_name) key_column
    update_column extra_columns start_key end_key min_time max_time, p.2)

/-- Modelled from the spec: `DEFAULT_BISECTION_FACTOR` is imported by the
given source from the absent `diff_tables.py`; the spec constrains only
`bisectionFactor ≥ 2`. -/
def DEFAULT_BISECTION_FACTOR : Nat := 32

/-- Modelled from the spec: `DEFAULT_BISECTION_THRESHOLD` is imported by the
given source from the absent `diff_tables.py`; the spec constrains only
`bisectionThreshold ≥ 1`. -/
def DEFAULT_BISECTION_THRESHOLD : Nat := 16384

/-- The keyword parameters of `diff_tables` (src/data_diff/__init__.py:30-58),
one field per parameter, in source order. -/
structure DiffTablesOptions where
  key_column : String
  update_column : Option String
  extra_columns : List String
  start_key : Option DbKey
  end_key : Option DbKey
  min_time : Option DbTime
  max_time : Option DbTime
  bisection_factor : Nat
  bisection_threshold : Nat
  threaded : Bool
  max_threadpool_size : Option Nat
  debug : Bool
  db_thread_count : Nat
deriving DecidableEq

/-- The default values of the keyword parameters of `diff_tables`
(src/data_diff/__init__.py:34-57): in particular
`max_threadpool_size: Optional[int] = 1` and `db_thread_count: int = 1`. -/
def defaultOptions : DiffTablesOptions :=
  ⟨"id", none, [], none, none, none, none, DEFAULT_BISECTION_FACTOR,
   DEFAULT_BISECTION_THRESHOLD, true, some 1, false, 1⟩

/-- The names of the keyword parameters in the signature of `diff_tables`
(src/data_diff/__init__.py:30-58), in source order. -/
def diffTablesKeywordParams : List String :=
  ["key_column", "update_column", "extra_columns", "start_key", "end_key",
   "min_time", "max_time", "bisection_factor", "bisection_threshold",
   "threaded", "max_threadpool_size", "debug", "db_thread_count"]

/-- Following the spec's words (§6): the caller-facing configuration surface
is exactly the two table views' logical description (key column, optional
update column, extra columns, optional key bounds, optional time bounds), the
bisection factor, the bisection threshold, the concurrency toggle, and the
max worker count. -/
def specSurfaceParams : List String :=
  ["key_column", "update_column", "extra_columns", "start_key", "end_key",
   "min_time", "max_time", "bisection_factor", "bisection_threshold",
   "threaded", "max_threadpool_size"]

/-- Modelled from the spec: the Bisection Differ (`TableDiffer` from the
absent `diff_tables.py`) — its configuration record. -/
structure TableDiffer where
  bisection_factor : Nat
  bisection_threshold : Nat
  debug : Bool
  threaded : Bool
  max_threadpool_size : Option Nat
deriving DecidableEq

/-- Modelled from the spec: `TableDiffer` construction validates
`bisectionFactor ≥ 2` and `bisectionThreshold ≥ 1`. -/
def TableDiffer.make (bisection_factor bisection_threshold : Nat)
    (debug threaded : Bool) (max_threadpool_size : Option Nat) :
    Except String TableDiffer :=
  if bisection_factor < 2 then
    Except.error "PreconditionViolation: bisection_factor must be at least 2"
  else if bisection_threshold < 1 then
    Except.error "PreconditionViolation: bisection_threshold must be at least 1"
  else
    Except.ok ⟨bisection_factor, bisection_threshold, debug, threaded,
      max_threadpool_size⟩

/-- Does a key fall inside the half-open range `[start_key, end_key)`?  A
`none` bound is unbounded in that direction. -/
def keyInRange (start_key end_key : Option DbKey) (k : DbKey) : Bool :=
  (match start_key with
   | none => true
   | some s => decide (s ≤ k)) &&
  (match end_key with
   | none => true
   | some e => decide (k < e))

/-- Is an update-column value inside the closed range `[min_time, max_time]`? -/
def timeInRange (min_time max_time : Option DbTime) (t : DbTime) : Bool :=
  (match min_time with
   | none => true
   | some m => decide (m ≤ t)) &&
  (match max_time with
   | none => true
   | some m => decide (t ≤ m))

/-- Modelled from the spec: the rows of a view's slice — the table's rows
restricted to `keyRange ∩ timeRange`; the time filter applies only when an
update column is configured. -/
def TableSegment.sliceRows (s : TableSegment) (env : Env) : List Row :=
  (env s.database.uri s.table_path).filter fun r =>
    keyInRange s.start_key s.end_key r.key &&
    (match s.update_column with
     | none => true
     | some _ => timeInRange s.min_time s.max_time r.time)

/-- Modelled from the spec: `RowCount()` — the number of rows within the
view's slice. -/
def TableSegment.count (s : TableSegment) (env : Env) : Nat :=
  (s.sliceRows env).length

/-- Modelled from the spec: the comparison tuple of a row — the update
column's value when one is configured, followed by the extra columns'
values. -/
def TableSegment.rowTuple (s : TableSegment) (r : Row) : List Int :=
  (match s.update_column with
   | none => []
   | some _ => [r.time]) ++ r.content

/-- Modelled from the spec: a per-row hash over the key and the comparison
tuple, combined commutatively across rows by `TableSegment.checksum`. -/
def rowHash (key : DbKey) (tuple : List Int) : Int :=
  (key :: tuple).foldl (fun a x => a * 1000003 + x) 7

/-- Modelled from the spec: `Checksum()` — an order-independent aggregate
(the sum of per-row hashes) over the in-range rows, with a fixed sentinel
value (0) on the empty range. -/
def TableSegment.checksum (s : TableSegment) (env : Env) : Int :=
  ((s.sliceRows env).map fun r => rowHash r.key (s.rowTuple r)).sum

/-- Ordering of rows by their key value. -/
def rowLE (a b : Row) : Prop := a.key ≤ b.key

instance : DecidableRel rowLE := fun a b =>
  inferInstanceAs (Decidable (a.key ≤ b.key))

instance : IsTotal Row rowLE := ⟨fun a b => le_total a.key b.key⟩

instance : IsTrans Row rowLE := ⟨fun _ _ _ h h' => le_trans h h'⟩

/-- Modelled from the spec: `FetchRows()` — the slice's rows ordered by the
key column, ascending. -/
def TableSegment.fetchRows (s : TableSegment) (env : Env) : List Row :=
  List.insertionSort rowLE (s.sliceRows env)

/-- The sequence a leaf comparison walks: each in-range row's key paired with
its comparison tuple, in ascending key order. -/
def TableSegment.fetchTuples (s : TableSegment) (env : Env) :
    List (DbKey × List Int) :=
  (s.fetchRows env).map fun r => (r.key, s.rowTuple r)

/-- A Difference Record: a row present in side A only (`removed`), in side B
only (`added`), or present on both sides with differing content (`changed`,
carrying both versions). -/
inductive DiffRecord where
  | removed (key : DbKey) (tuple : List Int)
  | added (key : DbKey) (tuple : List Int)
  | changed (key : DbKey) (tupleA tupleB : List Int)
deriving DecidableEq

/-- The key value a Difference Record carries. -/
def DiffRecord.key : DiffRecord → DbKey
  | .removed k _ => k
  | .added k _ => k
  | .changed k _ _ => k

/-- The linear merge-walk over the two ascending-key sequences, one fuel unit
per consumed element; each step consumes at least one element of one side, so
any fuel of at least the two lengths' sum computes the full walk. -/
def diffRowsF : Nat → List (DbKey × List Int) → List (DbKey × List Int) →
    List DiffRecord
  | 0, _, _ => []
  | _ + 1, [], [] => []
  | n + 1, [], b :: bs => .added b.1 b.2 :: diffRowsF n [] bs
  | n + 1, a :: as, [] => .removed a.1 a.2 :: diffRowsF n as []
  | n + 1, a :: as, b :: bs =>
    if a.1 < b.1 then .removed a.1 a.2 :: diffRowsF n as (b :: bs)
    else if b.1 < a.1 then .added b.1 b.2 :: diffRowsF n (a :: as) bs
    else if a.2 ≠ b.2 then .changed a.1 a.2 b.2 :: diffRowsF n as bs
    else diffRowsF n as bs

/-- Modelled from the spec: the leaf direct comparison — a single linear
merge-walk over the two ascending-key sequences, emitting `removed`, `added`
and `changed` records. -/
def diffRows (xs ys : List (DbKey × List Int)) : List DiffRecord :=
  diffRowsF (xs.length + ys.length) xs ys

/-- Keep the element when the countdown hits zero and restart it at `k`,
else skip it: the worker behind `sampleEvery`. -/
def sampleCount (k : Nat) : Nat → List DbKey → List DbKey
  | _, [] => []
  | 0, x :: xs => x :: sampleCount k k xs
  | c + 1, _ :: xs => sampleCount k c xs

/-- Sample the head, then every `(k+1)`-th element after it. -/
def sampleEvery (k : Nat) (l : List DbKey) : List DbKey :=
  sampleCount k 0 l

/-- Modelled from the spec: `Checkpoints(n)` — at most `n - 1` split keys
sampled, as evenly as practical, from the actual key values present, in
ascending order. -/
def checkpointKeys (keys : List DbKey) (n : Nat) : List DbKey :=
  let sorted := (List.insertionSort (· ≤ ·) keys).dedup
  let step := sorted.length / n
  (sampleEvery step (sorted.drop step)).take (n - 1)

/-- The consecutive sub-range bounds a checkpoint list induces on the parent
range `[st, en)`: shared boundaries so that both sides split identically. -/
def subBounds (st en : Option DbKey) : List DbKey → List (Option DbKey × Option DbKey)
  | [] => [(st, en)]
  | c :: rest => (st, some c) :: subBounds (some c) en rest

/-- Modelled from the spec: `Sub-range(start, end)` — pure construction of the
same view narrowed to `[start, end)`. -/
def TableSegment.subRange (s : TableSegment) (st en : Option DbKey) : TableSegment :=
  ⟨s.database, s.table_path, s.key_column, s.update_column, s.extra_columns,
   st, en, s.min_time, s.max_time⟩

/-- Modelled from the spec (§4.2): one recursion of the Bisection Differ —
bound check, leaf decision against the bisection threshold, checksum pruning,
then split at shared checkpoints and recurse depth-first in checkpoint order.
`fuel` bounds the recursion depth; exhausted fuel falls back to the direct
leaf comparison. -/
def TableDiffer.diffRanges (d : TableDiffer) (env : Env) :
    Nat → TableSegment → TableSegment → List DiffRecord
  | 0, s1, s2 => diffRows (s1.fetchTuples env) (s2.fetchTuples env)
  | fuel + 1, s1, s2 =>
    let c1 := s1.count env
    let c2 := s2.count env
    if c1 = 0 && c2 = 0 then []
    else if c1 ≤ d.bisection_threshold || c2 ≤ d.bisection_threshold then
      diffRows (s1.fetchTuples env) (s2.fetchTuples env)
    else if s1.checksum env = s2.checksum env then []
    else
      let keys := (s1.fetchRows env ++ s2.fetchRows env).map Row.key
      let cps := checkpointKeys keys d.bisection_factor
      ((subBounds s1.start_key s1.end_key cps).map fun p =>
        d.diffRanges env fuel (s1.subRange p.1 p.2) (s2.subRange p.1 p.2)).flatten

/-- Modelled from the spec: `TableDiffer.diff_tables(table1, table2)` — runs
the recursion from the full range.  The spec bounds the recursion depth, so a
fuel of the two sides' total row count is sufficient. -/
def TableDiffer.diff_tables (d : TableDiffer) (env : Env)
    (s1 s2 : TableSegment) : List DiffRecord :=
  d.diffRanges env (s1.count env + s2.count env + 1) s1 s2

/-- The machine state a call to `diff_tables` can touch: the attribute stores
of the two `TableRef` arguments and the connection-opening state. -/
structure PyState where
  table1 : TableRef
  table2 : TableRef
  conn : ConnState
deriving DecidableEq

/-- Embeds the segment construction of `diff_tables`
(src/data_diff/__init__.py:67-80): one `create_table_segment` call per side,
in argument order, passing the same keyword arguments to both and
`thread_count = db_thread_count`. -/
def makeSegments (o : DiffTablesOptions) (st : PyState) :
    Except String (TableSegment × TableSegment) × ConnState :=
  let p1 := st.table1.create_table_segment o.db_thread_count o.key_column
    o.update_column o.extra_columns o.start_key o.end_key o.min_time
    o.max_time st.conn
  match p1.1 with
  | .error e => (.error e, p1.2)
  | .ok s1 =>
    let p2 := st.table2.create_table_segment o.db_thread_count o.key_column
      o.update_column o.extra_columns o.start_key o.end_key o.min_time
      o.max_time p1.2
    match p2.1 with
    | .error e => (.error e, p2.2)
    | .ok s2 => (.ok (s1, s2), p2.2)

/-- Embeds the differ construction of `diff_tables`
(src/data_diff/__init__.py:82-88). -/
def makeDiffer (o : DiffTablesOptions) : Except String TableDiffer :=
  TableDiffer.make o.bisection_factor o.bisection_threshold o.debug
    o.threaded o.max_threadpool_size

/-- Embeds `diff_tables` (src/data_diff/__init__.py:30-89): builds one table
segment per side, builds the differ, and returns the differ's record
sequence.  The returned `PyState` carries the attribute stores of the
`TableRef` arguments and the connection state after the call. -/
def diff_tables (o : DiffTablesOptions) (env : Env) (st : PyState) :
    Except String (List DiffRecord) × PyState :=
  match makeSegments o st with
  | (.error e, conn') => (.error e, ⟨st.table1, st.table2, conn'⟩)
  | (.ok (s1, s2), conn') =>
    match makeDiffer o with
    | .error e => (.error e, ⟨st.table1, st.table2, conn'⟩)
    | .ok d => (.ok (d.diff_tables env s1 s2), ⟨st.table1, st.table2, conn'⟩)

/-- Is an `Except` value a success? -/
def exceptIsOk {α : Type} : Except String α → Bool
  | .ok _ => true
  | .error _ => false

instance {ε α : Type} [DecidableEq ε] [DecidableEq α] :
    DecidableEq (Except ε α) := fun a b =>
  match a, b with
  | .ok x, .ok y =>
    if h : x = y then .isTrue (by rw [h])
    else .isFalse (by intro hc; cases hc; exact h rfl)
  | .ok _, .error _ => .isFalse (by intro hc; cases hc)
  | .error _, .ok _ => .isFalse (by intro hc; cases hc)
  | .error e, .error f =>
    if h : e = f then .isTrue (by rw [h])
    else .isFalse (by intro hc; cases hc; exact h rfl)

/-- Two table views describe the same logical slice: same source URI and
table path, same columns and same bounds.  The connection identity and
thread budget may differ. -/
def TableSegment.obsEq (s1 s2 : TableSegment) : Prop :=
  s1.database.uri = s2.database.uri ∧ s1.table_path = s2.table_path ∧
  s1.update_column = s2.update_column ∧ s1.extra_columns = s2.extra_columns ∧
  s1.start_key = s2.start_key ∧ s1.end_key = s2.end_key ∧
  s1.min_time = s2.min_time ∧ s1.max_time = s2.max_time

/-- Concrete fixture: a table reference to database URI "a". -/
def tA : TableRef := ⟨"a", "T"⟩

/-- Concrete fixture: a table reference to database URI "b". -/
def tB : TableRef := ⟨"b", "T"⟩

/-- Concrete fixture: initial machine state holding `tA` and `tB`. -/
def stAB : PyState := ⟨tA, tB, ⟨0, []⟩⟩

/-- Concrete fixture: the connection state after connecting to "a" then "b"
starting from the empty state. -/
def connAB : ConnState := ⟨2, ["a", "b"]⟩

/-- Concrete fixture: an environment with no rows anywhere. -/
def envEmpty : Env := fun _ _ => []

/-- Concrete fixture: database "a" holds two rows, everything else is
empty. -/
def envA : Env := fun u _ =>
  if u = "a" then [⟨1, 0, [10]⟩, ⟨2, 0, [20]⟩] else []

/-- Concrete fixture: databases "a" and "b" agree on key 1 but "a" alone has
key 2 and "b" alone has key 3. -/
def envAB : Env := fun u _ =>
  if u = "a" then [⟨1, 0, [1]⟩, ⟨2, 0, [2]⟩]
  else if u = "b" then [⟨1, 0, [1]⟩, ⟨3, 0, [3]⟩]
  else []

/-- Concrete fixture: the segment `diff_tables` builds for `tA` with default
options from the empty connection state. -/
def segA : TableSegment :=
  ⟨⟨"a", 1, 0⟩, ["T"], "id", none, [], none, none, none, none⟩

/-- Concrete fixture: the segment `diff_tables` builds for `tB` with default
options, second in construction order. -/
def segB : TableSegment :=
  ⟨⟨"b", 1, 1⟩, ["T"], "id", none, [], none, none, none, none⟩

/-- Concrete fixture: default options except `bisection_factor = 1`. -/
def oBadFactor : DiffTablesOptions :=
  ⟨"id", none, [], none, none, none, none, 1, DEFAULT_BISECTION_THRESHOLD,
   true, some 1, false, 1⟩

/-- Concrete fixture: default options except a malformed key range with
`start_key = 5 ≥ 3 = end_key`. -/
def oBadRange : DiffTablesOptions :=
  ⟨"id", none, [], some 5, some 3, none, none, DEFAULT_BISECTION_FACTOR,
   DEFAULT_BISECTION_THRESHOLD, true, some 1, false, 1⟩

/-- Concrete fixture: default options except `threaded = false`. -/
def oSequential : DiffTablesOptions :=
  ⟨"id", none, [], none, none, none, none, DEFAULT_BISECTION_FACTOR,
   DEFAULT_BISECTION_THRESHOLD, false, some 1, false, 1⟩

/-- Concrete fixture: default options except `max_threadpool_size = None`. -/
def oMaxPoolNone : DiffTablesOptions :=
  ⟨"id", none, [], none, none, none, none, DEFAULT_BISECTION_FACTOR,
   DEFAULT_BISECTION_THRESHOLD, true, none, false, 1⟩

/-! ## General lemmas about the embedding -/

/-- A successful `TableSegment.make` returns exactly the record of its
arguments. -/
theorem TableSegment.make_ok (db : Database) (path : List String)
    (kc : String) (uc : Option String) (ec : List String)
    (sk ek : Option DbKey) (mnt mxt : Option DbTime) (s : TableSegment)
    (h : TableSegment.make db path kc uc ec sk ek mnt mxt = .ok s) :
    s = ⟨db, path, kc, uc, ec, sk, ek, mnt, mxt⟩ := by
  unfold TableSegment.make at h
  split at h
  · split at h
    · cases h
    · cases h
      rfl
  · cases h
    rfl

/-- Characterization of a successful segment-construction phase of
`diff_tables`: each side's segment is built over a fresh connection to that
side's URI, with the shared keyword arguments, and the connection log grows
by the two URIs in argument order. -/
theorem makeSegments_ok (o : DiffTablesOptions) (st : PyState)
    (s1 s2 : TableSegment) (conn' : ConnState)
    (h : makeSegments o st = (.ok (s1, s2), conn')) :
    s1 = ⟨⟨st.table1.db_uri, o.db_thread_count, st.conn.nextConnId⟩,
      parse_table_name st.table1.table_name, o.key_column, o.update_column,
      o.extra_columns, o.start_key, o.end_key, o.min_time, o.max_time⟩ ∧
    s2 = ⟨⟨st.table2.db_uri, o.db_thread_count, st.conn.nextConnId + 1⟩,
      parse_table_name st.table2.table_name, o.key_column, o.update_column,
      o.extra_columns, o.start_key, o.end_key, o.min_time, o.max_time⟩ ∧
    conn' = ⟨st.conn.nextConnId + 2,
      st.conn.connectLog ++ [st.table1.db_uri, st.table2.db_uri]⟩ := by
  simp only [makeSegments, TableRef.create_table_segment, connect_to_uri] at h
  rcases hm1 : TableSegment.make
      ⟨st.table1.db_uri, o.db_thread_count, st.conn.nextConnId⟩
      (parse_table_name st.table1.table_name) o.key_column o.update_column
      o.extra_columns o.start_key o.end_key o.min_time o.max_time with e1 | t1
  · rw [hm1] at h
    cases h
  · rw [hm1] at h
    rcases hm2 : TableSegment.make
        ⟨st.table2.db_uri, o.db_thread_count, st.conn.nextConnId + 1⟩
        (parse_table_name st.table2.table_name) o.key_column o.update_column
        o.extra_columns o.start_key o.end_key o.min_time o.max_time with e2 | t2
    · rw [hm2] at h
      cases h
    · rw [hm2] at h
      have h1 := TableSegment.make_ok _ _ _ _ _ _ _ _ _ _ hm1
      have h2 := TableSegment.make_ok _ _ _ _ _ _ _ _ _ _ hm2
      cases h
      refine ⟨h1, h2, ?_⟩
      simp

/-- The returned machine state of `diff_tables` leaves both `TableRef`
attribute stores untouched, in every branch. -/
theorem diff_tables_state_refs (o : DiffTablesOptions) (env : Env)
    (st : PyState) :
    (diff_tables o env st).2.table1 = st.table1 ∧
    (diff_tables o env st).2.table2 = st.table2 := by
  unfold diff_tables
  rcases hms : makeSegments o st with ⟨r, conn'⟩
  rcases r with e | ⟨s1, s2⟩
  · exact ⟨rfl, rfl⟩
  · rcases hd : makeDiffer o with e | d
    · simp [hd]
    · simp [hd]

/-! ## Claims C2, C3, C4, C8, C9, C10 -/

/-- C2: for every invocation of `diff_tables`, the two table views passed to
the differ are constructed with identical logical bounds — the same
key column, update column, extra columns, start/end keys and min/max times on
both sides — and the only per-side difference is the database connection
derived from each `TableRef`'s URI and table name. -/
theorem claim_C2_identical_logical_bounds (o : DiffTablesOptions)
    (st : PyState) (s1 s2 : TableSegment) (conn' : ConnState)
    (h : makeSegments o st = (.ok (s1, s2), conn')) :
    s1.key_column = o.key_column ∧ s2.key_column = o.key_column ∧
    s1.update_column = o.update_column ∧ s2.update_column = o.update_column ∧
    s1.extra_columns = o.extra_columns ∧ s2.extra_columns = o.extra_columns ∧
    s1.start_key = o.start_key ∧ s2.start_key = o.start_key ∧
    s1.end_key = o.end_key ∧ s2.end_key = o.end_key ∧
    s1.min_time = o.min_time ∧ s2.min_time = o.min_time ∧
    s1.max_time = o.max_time ∧ s2.max_time = o.max_time ∧
    s1.database.uri = st.table1.db_uri ∧ s2.database.uri = st.table2.db_uri ∧
    s1.table_path = parse_table_name st.table1.table_name ∧
    s2.table_path = parse_table_name st.table2.table_name := by
  obtain ⟨h1, h2, _⟩ := makeSegments_ok o st s1 s2 conn' h
  subst h1
  subst h2
  exact ⟨rfl, rfl, rfl, rfl, rfl, rfl, rfl, rfl, rfl, rfl, rfl, rfl, rfl,
    rfl, rfl, rfl, rfl, rfl⟩

/-- Witness for C2: the segment construction for `tA`, `tB` under default
options concretely yields `segA`, `segB`, which satisfy all the stated
identities. -/
theorem claim_C2_witness :
    segA.key_column = defaultOptions.key_column ∧
    segB.key_column = defaultOptions.key_column ∧
    segA.update_column = defaultOptions.update_column ∧
    segB.update_column = defaultOptions.update_column ∧
    segA.extra_columns = defaultOptions.extra_columns ∧
    segB.extra_columns = defaultOptions.extra_columns ∧
    segA.start_key = defaultOptions.start_key ∧
    segB.start_key = defaultOptions.start_key ∧
    segA.end_key = defaultOptions.end_key ∧
    segB.end_key = defaultOptions.end_key ∧
    segA.min_time = defaultOptions.min_time ∧
    segB.min_time = defaultOptions.min_time ∧
    segA.max_time = defaultOptions.max_time ∧
    segB.max_time = defaultOptions.max_time ∧
    segA.database.uri = stAB.table1.db_uri ∧
    segB.database.uri = stAB.table2.db_uri ∧
    segA.table_path = parse_table_name stAB.table1.table_name ∧
    segB.table_path = parse_table_name stAB.table2.table_name :=
  claim_C2_identical_logical_bounds defaultOptions stAB segA segB connAB
    (by decide)

/-- C3 counterexample: the signature of `diff_tables` exposes the keyword
parameter `debug`, which is not part of the configuration surface the spec
enumerates, so the caller-facing surface does not consist exactly of the
enumerated items. -/
theorem claim_C3_counterexample :
    "debug" ∈ diffTablesKeywordParams ∧ "debug" ∉ specSurfaceParams := by
  decide

/-- C3 amended: the caller-facing configuration of `diff_tables` consists of
the spec's enumerated surface (two table views' logical description,
bisection factor, bisection threshold, concurrency toggle, max worker count)
plus a debug toggle and a per-connection thread count `db_thread_count`. -/
theorem claim_C3_amended_surface :
    diffTablesKeywordParams = specSurfaceParams ++ ["debug", "db_thread_count"] :=
  rfl

/-- C4 counterexample: omitting `max_threadpool_size` is not equivalent to
passing `None` — the differ constructed from the defaults differs from the
differ constructed with `max_threadpool_size = None`. -/
theorem claim_C4_counterexample :
    makeDiffer defaultOptions ≠ makeDiffer oMaxPoolNone := by
  decide

/-- C4 amended: when the caller does not pass `max_threadpool_size`,
`diff_tables` uses the default value 1 — equivalent to passing 1, not to
passing `None` (whose comment in the source marks it as the engine "auto"
default). -/
theorem claim_C4_amended_default_is_one :
    defaultOptions.max_threadpool_size = some 1 ∧
    makeDiffer defaultOptions =
      .ok ⟨DEFAULT_BISECTION_FACTOR, DEFAULT_BISECTION_THRESHOLD, false, true,
        some 1⟩ := by
  exact ⟨rfl, rfl⟩

/-- C8: every successful call opens one fresh connection per side at call
time — `connect_to_uri` once per `TableRef` argument, in argument order — and
the two segments hold independent connections with distinct ids (also when
the same `TableRef` is passed on both sides, since the quantification does
not constrain the two refs); the connection state returned by `diff_tables`
is the one the segment-construction phase produced. -/
theorem claim_C8_two_fresh_connections (o : DiffTablesOptions) (env : Env)
    (st : PyState) (s1 s2 : TableSegment) (conn' : ConnState)
    (h : makeSegments o st = (.ok (s1, s2), conn')) :
    conn'.connectLog =
      st.conn.connectLog ++ [st.table1.db_uri, st.table2.db_uri] ∧
    s1.database.conn_id = st.conn.nextConnId ∧
    s2.database.conn_id = st.conn.nextConnId + 1 ∧
    s1.database.conn_id ≠ s2.database.conn_id ∧
    (diff_tables o env st).2.conn = conn' := by
  obtain ⟨h1, h2, h3⟩ := makeSegments_ok o st s1 s2 conn' h
  subst h1
  subst h2
  subst h3
  refine ⟨rfl, rfl, rfl, ?_, ?_⟩
  · show st.conn.nextConnId ≠ st.conn.nextConnId + 1
    omega
  unfold diff_tables
  rw [h]
  rcases makeDiffer o with e | d
  · rfl
  · rfl

/-- Witness for C8: the concrete run on `tA`, `tB` from the empty connection
state opens exactly the two logged connections with ids 0 and 1. -/
theorem claim_C8_witness :
    connAB.connectLog =
      stAB.conn.connectLog ++ [stAB.table1.db_uri, stAB.table2.db_uri] ∧
    segA.database.conn_id = stAB.conn.nextConnId ∧
    segB.database.conn_id = stAB.conn.nextConnId + 1 ∧
    segA.database.conn_id ≠ segB.database.conn_id ∧
    (diff_tables defaultOptions envEmpty stAB).2.conn = connAB :=
  claim_C8_two_fresh_connections defaultOptions envEmpty stAB segA segB connAB
    (by decide)

/-- C9: both sides' table segments receive the same per-connection
concurrency budget, namely the single `db_thread_count` argument; the
interface provides no way to give the two sides different budgets, since this
holds for every invocation. -/
theorem claim_C9_same_thread_budget (o : DiffTablesOptions) (st : PyState)
    (s1 s2 : TableSegment) (conn' : ConnState)
    (h : makeSegments o st = (.ok (s1, s2), conn')) :
    s1.database.thread_count = o.db_thread_count ∧
    s2.database.thread_count = o.db_thread_count ∧
    defaultOptions.db_thread_count = 1 := by
  obtain ⟨h1, h2, _⟩ := makeSegments_ok o st s1 s2 conn' h
  subst h1
  subst h2
  exact ⟨rfl, rfl, rfl⟩

/-- Witness for C9: in the concrete run both segments carry the default
budget of one thread. -/
theorem claim_C9_witness :
    segA.database.thread_count = defaultOptions.db_thread_count ∧
    segB.database.thread_count = defaultOptions.db_thread_count ∧
    defaultOptions.db_thread_count = 1 :=
  claim_C9_same_thread_budget defaultOptions stAB segA segB connAB (by decide)

/-- C10: `diff_tables` does not modify its `TableRef` arguments — after any
call, the `db_uri` and `table_name` fields of both argument objects are
exactly what `TableRef.__init__` stored in them. -/
theorem claim_C10_table_refs_unmodified (u1 n1 u2 n2 : String)
    (o : DiffTablesOptions) (env : Env) (conn : ConnState) :
    (diff_tables o env
      ⟨TableRef.init u1 n1, TableRef.init u2 n2, conn⟩).2.table1.db_uri = u1 ∧
    (diff_tables o env
      ⟨TableRef.init u1 n1, TableRef.init u2 n2, conn⟩).2.table1.table_name = n1 ∧
    (diff_tables o env
      ⟨TableRef.init u1 n1, TableRef.init u2 n2, conn⟩).2.table2.db_uri = u2 ∧
    (diff_tables o env
      ⟨TableRef.init u1 n1, TableRef.init u2 n2, conn⟩).2.table2.table_name = n2 := by
  obtain ⟨h1, h2⟩ := diff_tables_state_refs o env
    ⟨TableRef.init u1 n1, TableRef.init u2 n2, conn⟩
  rw [h1, h2]
  exact ⟨rfl, rfl, rfl, rfl⟩

/-! ## Claims C5 and C6 -/

/-- C5: differ construction succeeds exactly when `bisection_factor ≥ 2` and
`bisection_threshold ≥ 1`; with a bad configuration, `diff_tables` fails (no
Difference Record is produced) — the failure is the differ-construction
error, raised before any range comparison. -/
theorem claim_C5_differ_config_validation :
    (∀ (f t : Nat) (dbg thr : Bool) (mts : Option Nat),
      exceptIsOk (TableDiffer.make f t dbg thr mts) = true ↔ 2 ≤ f ∧ 1 ≤ t) ∧
    (∀ (o : DiffTablesOptions) (env : Env) (st : PyState),
      o.bisection_factor < 2 ∨ o.bisection_threshold < 1 →
      exceptIsOk (diff_tables o env st).1 = false) := by
  have hmake : ∀ (f t : Nat) (dbg thr : Bool) (mts : Option Nat),
      exceptIsOk (TableDiffer.make f t dbg thr mts) = true ↔ 2 ≤ f ∧ 1 ≤ t := by
    intro f t dbg thr mts
    unfold TableDiffer.make
    by_cases hf : f < 2
    · simp [hf, exceptIsOk]
    · by_cases ht : t < 1
      · simp [hf, ht, exceptIsOk]
      · simp [hf, ht, exceptIsOk]
        omega
  refine ⟨hmake, ?_⟩
  intro o env st hbad
  unfold diff_tables
  rcases hms : makeSegments o st with ⟨r, conn'⟩
  rcases r with e | ⟨s1, s2⟩
  · rfl
  · rcases hd : makeDiffer o with e | d
    · simp [hd, exceptIsOk]
    · exfalso
      have : exceptIsOk (makeDiffer o) = true := by
        rw [hd]
        rfl
      rw [makeDiffer] at this
      rw [hmake] at this
      omega

/-- Witness for C5: a successful construction at the minimal valid
configuration, and a concrete invalid invocation (`bisection_factor = 1`)
that fails before producing any record. -/
theorem claim_C5_witness :
    (exceptIsOk (TableDiffer.make 2 1 false true none) = true ↔
      2 ≤ 2 ∧ 1 ≤ 1) ∧
    exceptIsOk (diff_tables oBadFactor envEmpty stAB).1 = false :=
  ⟨claim_C5_differ_config_validation.1 2 1 false true none,
   claim_C5_differ_config_validation.2 oBadFactor envEmpty stAB
     (Or.inl (by decide))⟩

/-- C6: a successfully constructed table view with both bounds set satisfies
`start_key < end_key`; and a call of `diff_tables` with
`start_key ≥ end_key` fails with the precondition-violation error raised at
view construction — before the differ is constructed and before any record
is yielded. -/
theorem claim_C6_range_precondition :
    (∀ (db : Database) (path : List String) (kc : String) (uc : Option String)
       (ec : List String) (sk ek : Option DbKey) (mnt mxt : Option DbTime)
       (s : TableSegment),
      TableSegment.make db path kc uc ec sk ek mnt mxt = .ok s →
      ∀ a b : DbKey, s.start_key = some a → s.end_key = some b → a < b) ∧
    (∀ (o : DiffTablesOptions) (env : Env) (st : PyState) (a b : DbKey),
      o.start_key = some a → o.end_key = some b → b ≤ a →
      (diff_tables o env st).1 =
        .error "PreconditionViolation: start_key must be smaller than end_key") := by
  constructor
  · intro db path kc uc ec sk ek mnt mxt s h a b hsa hsb
    have hs := TableSegment.make_ok db path kc uc ec sk ek mnt mxt s h
    subst hs
    have hsa' : sk = some a := hsa
    have hsb' : ek = some b := hsb
    subst hsa'
    subst hsb'
    by_cases hba : b ≤ a
    · exfalso
      simp only [TableSegment.make] at h
      rw [if_pos hba] at h
      cases h
    · exact not_le.mp hba
  · intro o env st a b hsa hsb hba
    unfold diff_tables makeSegments TableRef.create_table_segment
      connect_to_uri TableSegment.make
    simp only [hsa, hsb]
    rw [if_pos hba]

/-- Witness for C6: the view over `[1, 4)` is constructible and satisfies
`1 < 4`, while the concrete malformed range `[5, 3)` makes `diff_tables`
fail with the precondition-violation error. -/
theorem claim_C6_witness :
    (1 : DbKey) < 4 ∧
    (diff_tables oBadRange envEmpty stAB).1 =
      .error "PreconditionViolation: start_key must be smaller than end_key" :=
  ⟨claim_C6_range_precondition.1 ⟨"a", 1, 0⟩ ["T"] "id" none [] (some 1)
      (some 4) none none
      ⟨⟨"a", 1, 0⟩, ["T"], "id", none, [], some 1, some 4, none, none⟩
      (by decide) 1 4 rfl rfl,
   claim_C6_range_precondition.2 oBadRange envEmpty stAB 5 3 rfl rfl
     (by decide)⟩

/-! ## Claim C1: reflexivity -/

/-- Two observationally equal views have the same slice of rows. -/
theorem sliceRows_congr (s1 s2 : TableSegment) (env : Env)
    (h : s1.obsEq s2) : s1.sliceRows env = s2.sliceRows env := by
  obtain ⟨h1, h2, h3, h4, h5, h6, h7, h8⟩ := h
  unfold TableSegment.sliceRows
  rw [h1, h2]
  simp only [h3, h5, h6, h7, h8]

/-- Two observationally equal views report the same row count. -/
theorem count_congr (s1 s2 : TableSegment) (env : Env)
    (h : s1.obsEq s2) : s1.count env = s2.count env := by
  unfold TableSegment.count
  rw [sliceRows_congr s1 s2 env h]

/-- Two observationally equal views report the same checksum. -/
theorem checksum_congr (s1 s2 : TableSegment) (env : Env)
    (h : s1.obsEq s2) : s1.checksum env = s2.checksum env := by
  obtain ⟨h1, h2, h3, h4, h5, h6, h7, h8⟩ := h
  unfold TableSegment.checksum TableSegment.rowTuple
  rw [sliceRows_congr s1 s2 env ⟨h1, h2, h3, h4, h5, h6, h7, h8⟩]
  simp only [h3]

/-- Two observationally equal views fetch the same key-and-tuple sequence. -/
theorem fetchTuples_congr (s1 s2 : TableSegment) (env : Env)
    (h : s1.obsEq s2) : s1.fetchTuples env = s2.fetchTuples env := by
  obtain ⟨h1, h2, h3, h4, h5, h6, h7, h8⟩ := h
  unfold TableSegment.fetchTuples TableSegment.fetchRows TableSegment.rowTuple
  rw [sliceRows_congr s1 s2 env ⟨h1, h2, h3, h4, h5, h6, h7, h8⟩]
  simp only [h3]

/-- The fueled merge-walk of a sequence against itself emits nothing. -/
theorem diffRowsF_self : ∀ (n : Nat) (l : List (DbKey × List Int)),
    diffRowsF n l l = []
  | 0, _ => rfl
  | _ + 1, [] => rfl
  | n + 1, a :: as => by
    have ih := diffRowsF_self n as
    simp [diffRowsF, ih]

/-- The merge-walk of a sequence against itself emits nothing. -/
theorem diffRows_self (l : List (DbKey × List Int)) : diffRows l l = [] :=
  diffRowsF_self _ l

/-- The differ yields no record for two observationally equal views: the
counts agree, so either both ranges are empty, or the leaf comparison walks
two identical sequences, or the equal checksums prune the range. -/
theorem diffRanges_obsEq (d : TableDiffer) (env : Env) (fuel : Nat)
    (s1 s2 : TableSegment) (h : s1.obsEq s2) :
    d.diffRanges env fuel s1 s2 = [] := by
  have hft := fetchTuples_congr s1 s2 env h
  have hc := count_congr s1 s2 env h
  have hk := checksum_congr s1 s2 env h
  cases fuel with
  | zero =>
    show diffRows (s1.fetchTuples env) (s2.fetchTuples env) = []
    rw [← hft]
    exact diffRows_self _
  | succ n =>
    simp only [TableDiffer.diffRanges]
    rw [← hc, ← hk, ← hft]
    by_cases h0 : s1.count env = 0
    · simp [h0]
    · by_cases hth : s1.count env ≤ d.bisection_threshold
      · simp [h0, hth, diffRows_self]
      · simp [h0, hth, diffRows_self]

/-- C1: comparing a table view against an observationally identical view
(same source, same range, same columns) yields the empty record sequence; in
particular `diff_tables(t, t)` with the same `TableRef` on both sides yields
no Difference Record. -/
theorem claim_C1_reflexivity :
    (∀ (d : TableDiffer) (env : Env) (fuel : Nat) (s1 s2 : TableSegment),
      s1.obsEq s2 → d.diffRanges env fuel s1 s2 = []) ∧
    (∀ (t : TableRef) (o : DiffTablesOptions) (env : Env) (conn : ConnState)
       (recs : List DiffRecord) (st' : PyState),
      diff_tables o env ⟨t, t, conn⟩ = (.ok recs, st') → recs = []) := by
  refine ⟨fun d env fuel s1 s2 h => diffRanges_obsEq d env fuel s1 s2 h, ?_⟩
  intro t o env conn recs st' h
  unfold diff_tables at h
  rcases hms : makeSegments o ⟨t, t, conn⟩ with ⟨r, conn'⟩
  rw [hms] at h
  rcases r with e | ⟨s1, s2⟩
  · cases h
  · obtain ⟨h1, h2, _⟩ := makeSegments_ok o ⟨t, t, conn⟩ s1 s2 conn' hms
    rcases hd : makeDiffer o with e | d
    · rw [hd] at h
      cases h
    · rw [hd] at h
      have hr : recs = d.diff_tables env s1 s2 := by
        injection h with ha hb
        injection ha with ha'
        exact ha'.symm
      rw [hr]
      unfold TableDiffer.diff_tables
      apply diffRanges_obsEq
      subst h1
      subst h2
      exact ⟨rfl, rfl, rfl, rfl, rfl, rfl, rfl, rfl⟩

/-- Witness for C1: a concrete differ on the identical concrete view yields
no record, and the concrete call `diff_tables(tA, tA)` over a two-row table
returns the empty record sequence. -/
theorem claim_C1_witness :
    (⟨DEFAULT_BISECTION_FACTOR, DEFAULT_BISECTION_THRESHOLD, false, true,
        some 1⟩ : TableDiffer).diffRanges envA 3 segA segA = [] ∧
    ([] : List DiffRecord) = [] :=
  ⟨claim_C1_reflexivity.1
      ⟨DEFAULT_BISECTION_FACTOR, DEFAULT_BISECTION_THRESHOLD, false, true,
        some 1⟩ envA 3 segA segA
      ⟨rfl, rfl, rfl, rfl, rfl, rfl, rfl, rfl⟩,
   claim_C1_reflexivity.2 tA defaultOptions envA ⟨0, []⟩ []
     ⟨tA, tA, ⟨2, ["a", "a"]⟩⟩ (by decide)⟩

/-! ## Claim C7: ascending key order of the sequential walk -/

/-- Every record the merge-walk emits takes its key from one of the two input
sequences. -/
theorem diffRowsF_key_mem : ∀ (n : Nat) (xs ys : List (DbKey × List Int))
    (r : DiffRecord), r ∈ diffRowsF n xs ys →
    r.key ∈ xs.map Prod.fst ∨ r.key ∈ ys.map Prod.fst := by
  intro n
  induction n with
  | zero =>
    intro xs ys r h
    simp [diffRowsF] at h
  | succ n ih =>
    intro xs ys r h
    match xs, ys with
    | [], [] => simp [diffRowsF] at h
    | [], b :: bs =>
      rcases List.mem_cons.mp h with h1 | h1
      · subst h1
        right
        simp [DiffRecord.key]
      · rcases ih [] bs r h1 with h2 | h2
        · simp at h2
        · right
          simp only [List.map_cons, List.mem_cons]
          exact Or.inr h2
    | a :: as, [] =>
      rcases List.mem_cons.mp h with h1 | h1
      · subst h1
        left
        simp [DiffRecord.key]
      · rcases ih as [] r h1 with h2 | h2
        · left
          simp only [List.map_cons, List.mem_cons]
          exact Or.inr h2
        · simp at h2
    | a :: as, b :: bs =>
      by_cases hab : a.1 < b.1
      · rw [show diffRowsF (n + 1) (a :: as) (b :: bs) =
            (if a.1 < b.1 then .removed a.1 a.2 :: diffRowsF n as (b :: bs)
             else if b.1 < a.1 then .added b.1 b.2 :: diffRowsF n (a :: as) bs
             else if a.2 ≠ b.2 then .changed a.1 a.2 b.2 :: diffRowsF n as bs
             else diffRowsF n as bs) from rfl, if_pos hab] at h
        rcases List.mem_cons.mp h with h1 | h1
        · subst h1
          left
          simp [DiffRecord.key]
        · rcases ih as (b :: bs) r h1 with h2 | h2
          · left
            simp only [List.map_cons, List.mem_cons]
            exact Or.inr h2
          · exact Or.inr h2
      · by_cases hba : b.1 < a.1
        · rw [show diffRowsF (n + 1) (a :: as) (b :: bs) =
              (if a.1 < b.1 then .removed a.1 a.2 :: diffRowsF n as (b :: bs)
               else if b.1 < a.1 then .added b.1 b.2 :: diffRowsF n (a :: as) bs
               else if a.2 ≠ b.2 then .changed a.1 a.2 b.2 :: diffRowsF n as bs
               else diffRowsF n as bs) from rfl, if_neg hab, if_pos hba] at h
          rcases List.mem_cons.mp h with h1 | h1
          · subst h1
            right
            simp [DiffRecord.key]
          · rcases ih (a :: as) bs r h1 with h2 | h2
            · exact Or.inl h2
            · right
              simp only [List.map_cons, List.mem_cons]
              exact Or.inr h2
        · by_cases htup : a.2 ≠ b.2
          · rw [show diffRowsF (n + 1) (a :: as) (b :: bs) =
                (if a.1 < b.1 then .removed a.1 a.2 :: diffRowsF n as (b :: bs)
                 else if b.1 < a.1 then .added b.1 b.2 :: diffRowsF n (a :: as) bs
                 else if a.2 ≠ b.2 then .changed a.1 a.2 b.2 :: diffRowsF n as bs
                 else diffRowsF n as bs) from rfl, if_neg hab, if_neg hba,
              if_pos htup] at h
            rcases List.mem_cons.mp h with h1 | h1
            · subst h1
              left
              simp [DiffRecord.key]
            · rcases ih as bs r h1 with h2 | h2
              · left
                simp only [List.map_cons, List.mem_cons]
                exact Or.inr h2
              · right
                simp only [List.map_cons, List.mem_cons]
                exact Or.inr h2
          · rw [show diffRowsF (n + 1) (a :: as) (b :: bs) =
                (if a.1 < b.1 then .removed a.1 a.2 :: diffRowsF n as (b :: bs)
                 else if b.1 < a.1 then .added b.1 b.2 :: diffRowsF n (a :: as) bs
                 else if a.2 ≠ b.2 then .changed a.1 a.2 b.2 :: diffRowsF n as bs
                 else diffRowsF n as bs) from rfl, if_neg hab, if_neg hba,
              if_neg htup] at h
            rcases ih as bs r h with h2 | h2
            · left
              simp only [List.map_cons, List.mem_cons]
              exact Or.inr h2
            · right
              simp only [List.map_cons, List.mem_cons]
              exact Or.inr h2

/-- Unfolding equation of the fueled merge-walk at two nonempty inputs. -/
theorem diffRowsF_cons_cons (n : Nat) (a b : DbKey × List Int)
    (as bs : List (DbKey × List Int)) :
    diffRowsF (n + 1) (a :: as) (b :: bs) =
      if a.1 < b.1 then .removed a.1 a.2 :: diffRowsF n as (b :: bs)
      else if b.1 < a.1 then .added b.1 b.2 :: diffRowsF n (a :: as) bs
      else if a.2 ≠ b.2 then .changed a.1 a.2 b.2 :: diffRowsF n as bs
      else diffRowsF n as bs := rfl

/-- The merge-walk of two ascending-key sequences emits records in ascending
key order. -/
theorem diffRowsF_sorted : ∀ (n : Nat) (xs ys : List (DbKey × List Int)),
    List.Pairwise (· ≤ ·) (xs.map Prod.fst) →
    List.Pairwise (· ≤ ·) (ys.map Prod.fst) →
    List.Pairwise (fun r r' : DiffRecord => r.key ≤ r'.key)
      (diffRowsF n xs ys) := by
  intro n
  induction n with
  | zero =>
    intro xs ys _ _
    exact List.Pairwise.nil
  | succ n ih =>
    intro xs ys hxs hys
    match xs, ys with
    | [], [] => exact List.Pairwise.nil
    | [], b :: bs =>
      have hys' := hys
      rw [List.map_cons, List.pairwise_cons] at hys'
      refine List.pairwise_cons.mpr ⟨?_, ih [] bs List.Pairwise.nil hys'.2⟩
      intro r hr
      rcases diffRowsF_key_mem n [] bs r hr with h | h
      · simp at h
      · exact hys'.1 r.key h
    | a :: as, [] =>
      have hxs' := hxs
      rw [List.map_cons, List.pairwise_cons] at hxs'
      refine List.pairwise_cons.mpr ⟨?_, ih as [] hxs'.2 List.Pairwise.nil⟩
      intro r hr
      rcases diffRowsF_key_mem n as [] r hr with h | h
      · exact hxs'.1 r.key h
      · simp at h
    | a :: as, b :: bs =>
      have hxs' := hxs
      rw [List.map_cons, List.pairwise_cons] at hxs'
      have hys' := hys
      rw [List.map_cons, List.pairwise_cons] at hys'
      rw [diffRowsF_cons_cons]
      by_cases hab : a.1 < b.1
      · rw [if_pos hab]
        refine List.pairwise_cons.mpr ⟨?_, ih as (b :: bs) hxs'.2 hys⟩
        intro r hr
        rcases diffRowsF_key_mem n as (b :: bs) r hr with h | h
        · exact hxs'.1 r.key h
        · rw [List.map_cons, List.mem_cons] at h
          rcases h with h | h
          · rw [h]
            exact le_of_lt hab
          · exact le_trans (le_of_lt hab) (hys'.1 r.key h)
      · rw [if_neg hab]
        by_cases hba : b.1 < a.1
        · rw [if_pos hba]
          refine List.pairwise_cons.mpr ⟨?_, ih (a :: as) bs hxs hys'.2⟩
          intro r hr
          rcases diffRowsF_key_mem n (a :: as) bs r hr with h | h
          · rw [List.map_cons, List.mem_cons] at h
            rcases h with h | h
            · rw [h]
              exact le_of_lt hba
            · exact le_trans (le_of_lt hba) (hxs'.1 r.key h)
          · exact hys'.1 r.key h
        · rw [if_neg hba]
          have hkey : a.1 = b.1 := le_antisymm (not_lt.mp hba) (not_lt.mp hab)
          by_cases htup : a.2 ≠ b.2
          · rw [if_pos htup]
            refine List.pairwise_cons.mpr ⟨?_, ih as bs hxs'.2 hys'.2⟩
            intro r hr
            rcases diffRowsF_key_mem n as bs r hr with h | h
            · exact hxs'.1 r.key h
            · exact hkey ▸ hys'.1 r.key h
          · rw [if_neg htup]
            exact ih as bs hxs'.2 hys'.2

/-- Every row of a view's slice has its key inside the view's key range. -/
theorem mem_sliceRows_keyInRange (s : TableSegment) (env : Env) (r : Row)
    (h : r ∈ s.sliceRows env) :
    keyInRange s.start_key s.end_key r.key = true := by
  unfold TableSegment.sliceRows at h
  have h2 := (List.mem_filter.mp h).2
  simp only [Bool.and_eq_true] at h2
  exact h2.1

/-- Every fetched row has its key inside the view's key range. -/
theorem mem_fetchRows_keyInRange (s : TableSegment) (env : Env) (r : Row)
    (h : r ∈ s.fetchRows env) :
    keyInRange s.start_key s.end_key r.key = true := by
  unfold TableSegment.fetchRows at h
  exact mem_sliceRows_keyInRange s env r ((List.mem_insertionSort rowLE).mp h)

/-- Every fetched key-and-tuple pair has its key inside the view's range. -/
theorem fetchTuples_fst_inRange (s : TableSegment) (env : Env)
    (p : DbKey × List Int) (h : p ∈ s.fetchTuples env) :
    keyInRange s.start_key s.end_key p.1 = true := by
  unfold TableSegment.fetchTuples at h
  obtain ⟨r, hr, hp⟩ := List.mem_map.mp h
  rw [← hp]
  exact mem_fetchRows_keyInRange s env r hr

/-- The fetched rows are sorted by key. -/
theorem fetchRows_sorted (s : TableSegment) (env : Env) :
    List.Pairwise rowLE (s.fetchRows env) :=
  List.sorted_insertionSort rowLE (s.sliceRows env)

/-- The fetched key sequence is ascending. -/
theorem fetchTuples_fst_sorted (s : TableSegment) (env : Env) :
    List.Pairwise (· ≤ ·) ((s.fetchTuples env).map Prod.fst) := by
  unfold TableSegment.fetchTuples
  rw [List.map_map]
  exact List.pairwise_map.mpr (fetchRows_sorted s env)

/-- The countdown sampler returns a sublist of its input. -/
theorem sampleCount_sublist (k : Nat) : ∀ (c : Nat) (l : List DbKey),
    (sampleCount k c l).Sublist l := by
  intro c l
  induction l generalizing c with
  | nil => simp [sampleCount]
  | cons x xs ih =>
    cases c with
    | zero => exact (ih k).cons₂ x
    | succ c => exact (ih c).cons x

/-- The checkpoint keys form a sublist of the sorted deduplicated keys. -/
theorem checkpointKeys_sublist (keys : List DbKey) (n : Nat) :
    (checkpointKeys keys n).Sublist
      ((List.insertionSort (· ≤ ·) keys).dedup) := by
  unfold checkpointKeys sampleEvery
  exact (List.take_sublist _ _).trans
    ((sampleCount_sublist _ _ _).trans (List.drop_sublist _ _))

/-- Every checkpoint is one of the sampled keys. -/
theorem checkpointKeys_mem (keys : List DbKey) (n : Nat) (c : DbKey)
    (h : c ∈ checkpointKeys keys n) : c ∈ keys := by
  have h1 := (checkpointKeys_sublist keys n).subset h
  have h2 := (List.dedup_sublist _).subset h1
  exact (List.mem_insertionSort (fun a b : DbKey => a ≤ b)).mp h2

/-- The checkpoints are in ascending order. -/
theorem checkpointKeys_sorted (keys : List DbKey) (n : Nat) :
    List.Pairwise (· ≤ ·) (checkpointKeys keys n) := by
  have hs : List.Pairwise (fun a b : DbKey => a ≤ b)
      (List.insertionSort (· ≤ ·) keys) :=
    List.sorted_insertionSort (· ≤ ·) keys
  have hd := hs.sublist (List.dedup_sublist _)
  exact hd.sublist (checkpointKeys_sublist keys n)

/-- Unfolded characterization of range membership. -/
theorem keyInRange_iff (st en : Option DbKey) (k : DbKey) :
    keyInRange st en k = true ↔
      (∀ s, st = some s → s ≤ k) ∧ (∀ e, en = some e → k < e) := by
  cases st <;> cases en <;> simp [keyInRange]

/-- A key inside a sub-range whose bounds come from the parent range (or are
the parent's own bounds) is inside the parent range. -/
theorem keyInRange_sub (st en a b : Option DbKey) (k : DbKey)
    (ha : a = st ∨ ∃ c, keyInRange st en c = true ∧ a = some c)
    (hb : b = en ∨ ∃ c, keyInRange st en c = true ∧ b = some c)
    (hk : keyInRange a b k = true) : keyInRange st en k = true := by
  rw [keyInRange_iff] at hk ⊢
  constructor
  · intro s hs
    rcases ha with rfl | ⟨c, hc, rfl⟩
    · exact hk.1 s hs
    · exact le_trans (((keyInRange_iff st en c).mp hc).1 s hs) (hk.1 c rfl)
  · intro e he
    rcases hb with rfl | ⟨c, hc, rfl⟩
    · exact hk.2 e he
    · exact lt_trans (hk.2 c rfl) (((keyInRange_iff st en c).mp hc).2 e he)

/-- Each bound of a sub-range produced by `subBounds` is either the parent
bound or one of the checkpoints. -/
theorem subBounds_mem : ∀ (cps : List DbKey) (st en a b : Option DbKey),
    (a, b) ∈ subBounds st en cps →
    (a = st ∨ ∃ c ∈ cps, a = some c) ∧ (b = en ∨ ∃ c ∈ cps, b = some c) := by
  intro cps
  induction cps with
  | nil =>
    intro st en a b h
    simp only [subBounds, List.mem_singleton, Prod.mk.injEq] at h
    exact ⟨Or.inl h.1, Or.inl h.2⟩
  | cons c rest ih =>
    intro st en a b h
    rcases List.mem_cons.mp h with h1 | h1
    · rw [Prod.mk.injEq] at h1
      refine ⟨Or.inl h1.1, Or.inr ⟨c, ?_, h1.2⟩⟩
      exact List.mem_cons_self c rest
    · obtain ⟨hA, hB⟩ := ih (some c) en a b h1
      constructor
      · rcases hA with rfl | ⟨c', hc', rfl⟩
        · exact Or.inr ⟨c, List.mem_cons_self c rest, rfl⟩
        · exact Or.inr ⟨c', List.mem_cons_of_mem c hc', rfl⟩
      · rcases hB with rfl | ⟨c', hc', rfl⟩
        · exact Or.inl rfl
        · exact Or.inr ⟨c', List.mem_cons_of_mem c hc', rfl⟩

/-- For a sorted checkpoint list, every sub-range to the right of checkpoint
`c` has a lower bound of at least `c`. -/
theorem subBounds_lower (en : Option DbKey) (cps : List DbKey) (c : DbKey)
    (a b : Option DbKey) (hp : List.Pairwise (· ≤ ·) (c :: cps))
    (h : (a, b) ∈ subBounds (some c) en cps) :
    ∃ c', a = some c' ∧ c ≤ c' := by
  obtain ⟨hA, _⟩ := subBounds_mem cps (some c) en a b h
  rcases hA with rfl | ⟨c', hc', rfl⟩
  · exact ⟨c, rfl, le_refl c⟩
  · exact ⟨c', rfl, (List.pairwise_cons.mp hp).1 c' hc'⟩

/-- Sub-range record lists are mutually ordered: when each sub-range's
records stay inside its bounds, records of an earlier sub-range have keys at
most those of a later one. -/
theorem subBounds_cross (g : Option DbKey × Option DbKey → List DiffRecord)
    (hg : ∀ a b : Option DbKey, ∀ x ∈ g (a, b),
      keyInRange a b x.key = true) :
    ∀ (cps : List DbKey) (st en : Option DbKey),
      List.Pairwise (· ≤ ·) cps →
      List.Pairwise (fun p q => ∀ x ∈ g p, ∀ y ∈ g q, x.key ≤ y.key)
        (subBounds st en cps) := by
  intro cps
  induction cps with
  | nil =>
    intro st en _
    simp [subBounds]
  | cons c rest ih =>
    intro st en hp
    refine List.pairwise_cons.mpr
      ⟨?_, ih (some c) en (List.pairwise_cons.mp hp).2⟩
    intro q hq x hx y hy
    obtain ⟨c', hqa, hcc'⟩ := subBounds_lower en rest c q.1 q.2 hp hq
    have hx' : x.key < c :=
      ((keyInRange_iff st (some c) x.key).mp (hg st (some c) x hx)).2 c rfl
    have hy' : c' ≤ y.key :=
      ((keyInRange_iff q.1 q.2 y.key).mp (hg q.1 q.2 y hy)).1 c' hqa
    exact le_trans (le_of_lt (lt_of_lt_of_le hx' hcc')) hy'

/-- A record from the leaf comparison of two views with equal bounds has its
key inside those bounds. -/
theorem diffRows_fetch_inRange (s1 s2 : TableSegment) (env : Env)
    (hst : s1.start_key = s2.start_key) (hen : s1.end_key = s2.end_key)
    (r : DiffRecord)
    (hr : r ∈ diffRows (s1.fetchTuples env) (s2.fetchTuples env)) :
    keyInRange s1.start_key s1.end_key r.key = true := by
  rcases diffRowsF_key_mem _ _ _ r hr with h | h
  · obtain ⟨p, hp, hpk⟩ := List.mem_map.mp h
    rw [← hpk]
    exact fetchTuples_fst_inRange s1 env p hp
  · obtain ⟨p, hp, hpk⟩ := List.mem_map.mp h
    rw [← hpk, hst, hen]
    exact fetchTuples_fst_inRange s2 env p hp

/-- Every record the differ emits for two equal-bounded views has its key
inside the shared key range. -/
theorem diffRanges_key_inRange (d : TableDiffer) (env : Env) :
    ∀ (fuel : Nat) (s1 s2 : TableSegment),
      s1.start_key = s2.start_key → s1.end_key = s2.end_key →
      ∀ r ∈ d.diffRanges env fuel s1 s2,
        keyInRange s1.start_key s1.end_key r.key = true := by
  intro fuel
  induction fuel with
  | zero =>
    intro s1 s2 hst hen r hr
    exact diffRows_fetch_inRange s1 s2 env hst hen r hr
  | succ n ih =>
    intro s1 s2 hst hen r hr
    have hcp : ∀ c ∈ checkpointKeys
        ((s1.fetchRows env ++ s2.fetchRows env).map Row.key)
        d.bisection_factor,
        keyInRange s1.start_key s1.end_key c = true := by
      intro c hc
      have hk := checkpointKeys_mem _ _ c hc
      obtain ⟨row, hrow, hrk⟩ := List.mem_map.mp hk
      rw [← hrk]
      rcases List.mem_append.mp hrow with h1 | h1
      · exact mem_fetchRows_keyInRange s1 env row h1
      · rw [hst, hen]
        exact mem_fetchRows_keyInRange s2 env row h1
    simp only [TableDiffer.diffRanges] at hr
    split at hr
    · cases hr
    · split at hr
      · exact diffRows_fetch_inRange s1 s2 env hst hen r hr
      · split at hr
        · cases hr
        · rw [List.mem_flatten] at hr
          obtain ⟨l, hl, hrl⟩ := hr
          obtain ⟨p, hp, hpl⟩ := List.mem_map.mp hl
          rw [← hpl] at hrl
          have hin : keyInRange p.1 p.2 r.key = true :=
            ih (s1.subRange p.1 p.2) (s2.subRange p.1 p.2) rfl rfl r hrl
          obtain ⟨hA, hB⟩ :=
            subBounds_mem _ s1.start_key s1.end_key p.1 p.2 hp
          refine keyInRange_sub s1.start_key s1.end_key p.1 p.2 r.key ?_ ?_ hin
          · rcases hA with h1 | ⟨c, hc, hceq⟩
            · exact Or.inl h1
            · exact Or.inr ⟨c, hcp c hc, hceq⟩
          · rcases hB with h1 | ⟨c, hc, hceq⟩
            · exact Or.inl h1
            · exact Or.inr ⟨c, hcp c hc, hceq⟩

/-- The sequential differ emits its records in ascending key order: within a
leaf the merge-walk is ascending, and sibling sub-ranges are visited in
checkpoint order with all keys confined to their sub-range. -/
theorem diffRanges_sorted (d : TableDiffer) (env : Env) :
    ∀ (fuel : Nat) (s1 s2 : TableSegment),
      s1.start_key = s2.start_key → s1.end_key = s2.end_key →
      List.Pairwise (fun r r' : DiffRecord => r.key ≤ r'.key)
        (d.diffRanges env fuel s1 s2) := by
  intro fuel
  induction fuel with
  | zero =>
    intro s1 s2 _ _
    exact diffRowsF_sorted _ _ _ (fetchTuples_fst_sorted s1 env)
      (fetchTuples_fst_sorted s2 env)
  | succ n ih =>
    intro s1 s2 hst hen
    simp only [TableDiffer.diffRanges]
    split
    · exact List.Pairwise.nil
    · split
      · exact diffRowsF_sorted _ _ _ (fetchTuples_fst_sorted s1 env)
          (fetchTuples_fst_sorted s2 env)
      · split
        · exact List.Pairwise.nil
        · rw [List.pairwise_flatten]
          constructor
          · intro l hl
            obtain ⟨p, hp, hpl⟩ := List.mem_map.mp hl
            rw [← hpl]
            exact ih (s1.subRange p.1 p.2) (s2.subRange p.1 p.2) rfl rfl
          · rw [List.pairwise_map]
            refine subBounds_cross _ ?_ _ s1.start_key s1.end_key
              (checkpointKeys_sorted _ _)
            intro a b x hx
            exact diffRanges_key_inRange d env n (s1.subRange a b)
              (s2.subRange a b) rfl rfl x hx

/-- C7: when `diff_tables` is called with `threaded = false`, the Difference
Records of the returned sequence are emitted in ascending order of their key
values. -/
theorem claim_C7_sequential_key_order (o : DiffTablesOptions) (env : Env)
    (st : PyState) (recs : List DiffRecord) (st' : PyState)
    (_hthr : o.threaded = false)
    (h : diff_tables o env st = (.ok recs, st')) :
    List.Sorted (· ≤ ·) (recs.map DiffRecord.key) := by
  unfold diff_tables at h
  rcases hms : makeSegments o st with ⟨r, conn'⟩
  rw [hms] at h
  rcases r with e | ⟨s1, s2⟩
  · cases h
  · rcases hd : makeDiffer o with e | d
    · rw [hd] at h
      cases h
    · rw [hd] at h
      have hr : recs = d.diff_tables env s1 s2 := by
        injection h with ha hb
        injection ha with ha'
        exact ha'.symm
      obtain ⟨h1, h2, _⟩ := makeSegments_ok o st s1 s2 conn' hms
      have hst : s1.start_key = s2.start_key := by
        rw [h1, h2]
      have hen : s1.end_key = s2.end_key := by
        rw [h1, h2]
      rw [hr]
      exact List.pairwise_map.mpr (diffRanges_sorted d env _ s1 s2 hst hen)

/-- Witness for C7: the concrete sequential run over `envAB` emits exactly
one removed and one added record, with ascending keys 2 then 3. -/
theorem claim_C7_witness :
    List.Sorted (· ≤ ·)
      (([DiffRecord.removed 2 [2], DiffRecord.added 3 [3]]).map
        DiffRecord.key) :=
  claim_C7_sequential_key_order oSequential envAB ⟨tA, tB, ⟨0, []⟩⟩
    [DiffRecord.removed 2 [2], DiffRecord.added 3 [3]]
    ⟨tA, tB, ⟨2, ["a", "b"]⟩⟩ rfl (by decide)

end DataDiff
